import Mathlib

/-!
Shallow embedding of Skia's `GrAAConvexPathRenderer.cpp` (the AA convex path
tessellator).  Scalars (`GrScalar` / `SkScalar`, float-configured) are
idealised as real numbers; machine floats' rounding is out of scope, the
algorithmic structure is embedded faithfully.  External collaborators
(`SkPath::Iter`, `GrPathUtils::convertCubicToQuads`, the quad UV matrix, the
draw target) are modelled as explicit parameters / traces.
-/

set_option maxHeartbeats 1000000

noncomputable section

/-- Side selector of `SkPoint::setOrthog` (90-degree rotation direction). -/
inductive GrSide where
  | kLeft
  | kRight
deriving DecidableEq

/-- A 2D point / vector (`GrPoint` = `SkPoint`), components idealised as reals. -/
@[ext] structure GrPoint where
  fX : ℝ
  fY : ℝ

instance : Inhabited GrPoint := ⟨⟨0, 0⟩⟩

instance : Add GrPoint := ⟨fun a b => ⟨a.fX + b.fX, a.fY + b.fY⟩⟩
instance : Sub GrPoint := ⟨fun a b => ⟨a.fX - b.fX, a.fY - b.fY⟩⟩
instance : Neg GrPoint := ⟨fun a => ⟨-a.fX, -a.fY⟩⟩

@[simp] theorem GrPoint.add_fX (a b : GrPoint) : (a + b).fX = a.fX + b.fX := rfl
@[simp] theorem GrPoint.add_fY (a b : GrPoint) : (a + b).fY = a.fY + b.fY := rfl
@[simp] theorem GrPoint.sub_fX (a b : GrPoint) : (a - b).fX = a.fX - b.fX := rfl
@[simp] theorem GrPoint.sub_fY (a b : GrPoint) : (a - b).fY = a.fY - b.fY := rfl
@[simp] theorem GrPoint.neg_fX (a : GrPoint) : (-a).fX = -a.fX := rfl
@[simp] theorem GrPoint.neg_fY (a : GrPoint) : (-a).fY = -a.fY := rfl

/-- Modelled from the spec: vectors support a dot product
(`SkPoint::dot`, not part of `src/`). -/
def GrPoint.dot (a b : GrPoint) : ℝ := a.fX * b.fX + a.fY * b.fY

/-- Squared distance between two points (`SkPoint::distanceToSqd`). -/
def GrPoint.distanceToSqd (a b : GrPoint) : ℝ :=
  (a.fX - b.fX) * (a.fX - b.fX) + (a.fY - b.fY) * (a.fY - b.fY)

/-- Squared length of a vector (`SkPoint::lengthSqd`). -/
def GrPoint.lengthSqd (a : GrPoint) : ℝ := a.fX * a.fX + a.fY * a.fY

/-- Euclidean length of a vector (`SkPoint::length`). -/
def GrPoint.length (a : GrPoint) : ℝ := Real.sqrt a.lengthSqd

/-- Modelled from the spec: vectors support `normalize` (scale to unit length;
`SkPoint::normalize`, not part of `src/`).  A zero vector is left unchanged,
matching the source's failure-leaves-unchanged behaviour (here `0 / 0 = 0`). -/
def GrPoint.normalize (a : GrPoint) : GrPoint :=
  ⟨a.fX / a.length, a.fY / a.length⟩

/-- Modelled from the spec: vectors support a 90-degree rotation to a chosen
side (`SkPoint::setOrthog`, not part of `src/`): the right side maps
`(x, y)` to `(-y, x)`, the left side to `(y, -x)`.  The claims settled below
depend only on the two sides being negations of each other. -/
def GrPoint.setOrthog (a : GrPoint) (side : GrSide) : GrPoint :=
  match side with
  | GrSide.kRight => ⟨-a.fY, a.fX⟩
  | GrSide.kLeft => ⟨a.fY, -a.fX⟩

/-- Modelled from the spec: distance from a point to the line through two
points (`SkPoint::distanceToLineBetween`, not part of `src/`):
`sqrt(det^2 / lengthSqd(b - a))`. -/
def GrPoint.distanceToLineBetween (p a b : GrPoint) : ℝ :=
  let u := b - a
  let v := p - a
  Real.sqrt ((u.fX * v.fY - u.fY * v.fX) * (u.fX * v.fY - u.fY * v.fX) / u.lengthSqd)

/-- The unit scalar `SK_Scalar1` / `GR_Scalar1`. -/
def SK_Scalar1 : ℝ := 1

/-- Modelled from the spec: the "small epsilon" `SK_ScalarNearlyZero`
(defined outside `src/` as `SK_Scalar1 / (1 << 12)`). -/
def SK_ScalarNearlyZero : ℝ := SK_Scalar1 / 4096

/-- Modelled from the spec: the large scalar bound `GR_ScalarMax` (the
float-configuration maximum, defined outside `src/`); only its large
magnitude matters to the claims below. -/
def GR_ScalarMax : ℝ := 3.402823466e38

/-- Stages of the incremental degeneracy classifier (`DegenerateTestData`). -/
inductive DegenStage where
  | kInitial
  | kPoint
  | kLine
  | kNonDegenerate
deriving DecidableEq

/-- State of the incremental degeneracy classifier: stage, anchor point and
the derived line equation (unit normal plus offset). -/
structure DegenerateTestData where
  fStage : DegenStage
  fFirstPoint : GrPoint
  fLineNormal : GrPoint
  fLineC : ℝ

/-- The constructor `DegenerateTestData()` only sets `fStage = kInitial`;
the remaining fields start out unread (modelled as zeroes). -/
def initDegenerateTestData : DegenerateTestData :=
  ⟨DegenStage.kInitial, ⟨0, 0⟩, ⟨0, 0⟩, 0⟩

/-- Verdict accessor: degenerate unless the absorbing stage was reached. -/
def DegenerateTestData.isDegenerate (d : DegenerateTestData) : Bool :=
  decide (d.fStage ≠ DegenStage.kNonDegenerate)

/-- Tolerance of the degeneracy test: `TOL = SK_Scalar1 / 16`. -/
def degenerateTOL : ℝ := SK_Scalar1 / 16

/-- Squared tolerance: `TOL_SQD = SkScalarMul(TOL, TOL)`. -/
def degenerateTOL_SQD : ℝ := degenerateTOL * degenerateTOL

/-- One step of the incremental degeneracy classifier
(`update_degenerate_test`). -/
def update_degenerate_test (data : DegenerateTestData) (pt : GrPoint) :
    DegenerateTestData :=
  match data.fStage with
  | DegenStage.kInitial =>
      { data with fFirstPoint := pt, fStage := DegenStage.kPoint }
  | DegenStage.kPoint =>
      if pt.distanceToSqd data.fFirstPoint > degenerateTOL_SQD then
        let n := (GrPoint.setOrthog (GrPoint.normalize (pt - data.fFirstPoint))
          GrSide.kLeft)
        { data with
          fLineNormal := n
          fLineC := -(n.dot data.fFirstPoint)
          fStage := DegenStage.kLine }
      else
        data
  | DegenStage.kLine =>
      if |data.fLineNormal.dot pt + data.fLineC| > degenerateTOL then
        { data with fStage := DegenStage.kNonDegenerate }
      else
        data
  | DegenStage.kNonDegenerate => data

/-- Segment kind tag. -/
inductive SegType where
  | kLine
  | kQuad
deriving DecidableEq

/-- A decoded path segment: a line holds one point, a quad holds two; one
outward normal per held point, plus the outward corner bisector shared with
the previous segment's junction. -/
structure Segment where
  fType : SegType
  fPts0 : GrPoint
  fPts1 : GrPoint
  fNorms0 : GrPoint
  fNorms1 : GrPoint
  fMid : GrPoint

instance : Inhabited Segment :=
  ⟨⟨SegType.kLine, ⟨0, 0⟩, ⟨0, 0⟩, ⟨0, 0⟩, ⟨0, 0⟩, ⟨0, 0⟩⟩⟩

/-- Number of points held by a segment (`Segment::countPoints`). -/
def Segment.countPoints (s : Segment) : ℕ :=
  match s.fType with
  | SegType.kLine => 1
  | SegType.kQuad => 2

/-- Final point of a segment (`Segment::endPt`). -/
def Segment.endPt (s : Segment) : GrPoint :=
  match s.fType with
  | SegType.kLine => s.fPts0
  | SegType.kQuad => s.fPts1

/-- Normal at the final point of a segment (`Segment::endNorm`). -/
def Segment.endNorm (s : Segment) : GrPoint :=
  match s.fType with
  | SegType.kLine => s.fNorms0
  | SegType.kQuad => s.fNorms1

/-- Endpoint of the segment at cyclic index `i` (array indexing modulo the
segment count, as in the source's `(i + 1) % count`). -/
def endPtAt (segments : List Segment) (i : ℕ) : GrPoint :=
  (segments.getD (i % segments.length) default).endPt

/-- One term of the shoelace accumulation in `center_of_mass`:
`t = pi.fX * pj.fY - pj.fX * pi.fY` for the cyclic pair at index `i`. -/
def shoelaceT (segments : List Segment) (i : ℕ) : ℝ :=
  (endPtAt segments i).fX * (endPtAt segments (i + 1)).fY -
    (endPtAt segments (i + 1)).fX * (endPtAt segments i).fY

/-- Area-weighted centroid of the segment-endpoint polygon, with fallback to
the arithmetic mean of the endpoints for (numerically) zero-area polygons
(`center_of_mass`).  The source accumulates `area`, `center.fX`, `center.fY`
in one loop; in exact arithmetic this is the corresponding sum. -/
def center_of_mass (segments : List Segment) : GrPoint :=
  let count := segments.length
  let area := ∑ i in Finset.range count, shoelaceT segments i
  let cX := ∑ i in Finset.range count,
    ((endPtAt segments i).fX + (endPtAt segments (i + 1)).fX) * shoelaceT segments i
  let cY := ∑ i in Finset.range count,
    ((endPtAt segments i).fY + (endPtAt segments (i + 1)).fY) * shoelaceT segments i
  if |area| < SK_ScalarNearlyZero then
    ⟨(∑ i in Finset.range count, (endPtAt segments i).fX) * (SK_Scalar1 / count),
     (∑ i in Finset.range count, (endPtAt segments i).fY) * (SK_Scalar1 / count)⟩
  else
    ⟨cX * (SK_Scalar1 / (3 * area)), cY * (SK_Scalar1 / (3 * area))⟩

/-- Winding direction of a path (`SkPath::Direction`). -/
inductive SkPathDirection where
  | kCW
  | kCCW
deriving DecidableEq

/-- Result record of `compute_vectors` (the out-parameters of the source
function: the updated segment array, the fan point and the exact vertex and
index counts). -/
structure ComputedVectors where
  segs : List Segment
  fanPt : GrPoint
  vCount : ℕ
  iCount : ℕ

/-- Vertices contributed by one segment's edge group: 5 for a line, 6 for a
quad (the increments of the first loop of `compute_vectors`). -/
def edgeVCount (s : Segment) : ℕ :=
  match s.fType with
  | SegType.kLine => 5
  | SegType.kQuad => 6

/-- Indices contributed by one segment's edge group: 9 for a line, 12 for a
quad. -/
def edgeICount (s : Segment) : ℕ :=
  match s.fType with
  | SegType.kLine => 9
  | SegType.kQuad => 12

/-- Body of the first loop of `compute_vectors` for the segment at index `b`:
its normals are the directions from the preceding point, normalised, rotated
to `normSide`.  The preceding point of the segment's first held point is the
end point of the previous segment (cyclically); end points are never mutated
by the loop, so the per-index update only reads the original array. -/
def computeSegNorms (segments : List Segment) (normSide : GrSide) (b : ℕ) :
    Segment :=
  let n := segments.length
  let sega := segments.getD ((b + n - 1) % n) default
  let segb := segments.getD b default
  let norm0 := GrPoint.setOrthog (GrPoint.normalize (segb.fPts0 - sega.endPt)) normSide
  match segb.fType with
  | SegType.kLine => { segb with fNorms0 := norm0 }
  | SegType.kQuad =>
      { segb with
        fNorms0 := norm0
        fNorms1 := GrPoint.setOrthog (GrPoint.normalize (segb.fPts1 - segb.fPts0))
          normSide }

/-- Body of the second loop of `compute_vectors` for the segment at index
`b`: its corner bisector is the normalised sum of its own starting normal and
the previous segment's ending normal (both already computed by the first
loop). -/
def computeSegMid (segs1 : List Segment) (b : ℕ) : Segment :=
  let n := segs1.length
  let sega := segs1.getD ((b + n - 1) % n) default
  let segb := segs1.getD b default
  { segb with fMid := GrPoint.normalize (segb.fNorms0 + sega.endNorm) }

/-- The outward rotation side chosen from the winding direction: right for
CCW, left for CW. -/
def normSideOf (dir : SkPathDirection) : GrSide :=
  match dir with
  | SkPathDirection.kCCW => GrSide.kRight
  | SkPathDirection.kCW => GrSide.kLeft

/-- The normal solver (`compute_vectors`): computes the fan point, per-point
outward normals (rotated right for CCW paths, left for CW paths), corner
bisectors, and the exact vertex/index counts (5/9 per line edge group, 6/12
per quad edge group, plus 4/6 per corner wedge).  The source's two in-place
loops each visit every index exactly once, so they are per-index maps here;
the interleaved count accumulation sums the same increments. -/
def compute_vectors (segments : List Segment) (dir : SkPathDirection) :
    ComputedVectors :=
  let fanPt := center_of_mass segments
  let normSide := normSideOf dir
  let n := segments.length
  let segs1 := (List.range n).map (computeSegNorms segments normSide)
  let segs2 := (List.range n).map (computeSegMid segs1)
  { segs := segs2
    fanPt := fanPt
    vCount := segments.foldl (fun acc s => acc + edgeVCount s) 0 + 4 * n
    iCount := segments.foldl (fun acc s => acc + edgeICount s) 0 + 6 * n }

/-- Path commands as yielded by the (external, force-closing) `SkPath::Iter`:
the fields are the points the source reads (`pts[1]` for a line, `pts[1..2]`
for a quad, all of `pts[0..3]` for a cubic, which is handed whole to the
flattener). -/
inductive GrPathCmd where
  | kMove (p : GrPoint)
  | kLine (p1 : GrPoint)
  | kQuadratic (p1 p2 : GrPoint)
  | kCubic (p0 p1 p2 p3 : GrPoint)
  | kClose

/-- A cubic flattener (`GrPathUtils::convertCubicToQuads`, an external
collaborator): produces the flat point array consumed three at a time. -/
def CubicFlattener : Type := GrPoint → GrPoint → GrPoint → GrPoint → List GrPoint

/-- Fresh segment pushed for a line command (`push_back` default-constructs;
the unset fields are modelled as zeroes). -/
def mkLineSegment (p : GrPoint) : Segment :=
  ⟨SegType.kLine, p, ⟨0, 0⟩, ⟨0, 0⟩, ⟨0, 0⟩, ⟨0, 0⟩⟩

/-- Fresh segment pushed for a quadratic command. -/
def mkQuadSegment (p1 p2 : GrPoint) : Segment :=
  ⟨SegType.kQuad, p1, p2, ⟨0, 0⟩, ⟨0, 0⟩, ⟨0, 0⟩⟩

/-- Segments pushed for the quads produced by the cubic flattener: the loop
reads `quads[q + 1]` and `quads[q + 2]` for `q = 0, 3, 6, ...`. -/
def quadSegsOfFlattened : List GrPoint → List Segment
  | _q0 :: q1 :: q2 :: rest => mkQuadSegment q1 q2 :: quadSegsOfFlattened rest
  | _ => []

/-- Points fed to the degeneracy classifier by one command: the move anchor,
a line's new point, a quad's two new points, a cubic's own three new control
points (never the flattener's output), nothing for close. -/
def fedPointsOfCmd (cmd : GrPathCmd) : List GrPoint :=
  match cmd with
  | GrPathCmd.kMove p => [p]
  | GrPathCmd.kLine p1 => [p1]
  | GrPathCmd.kQuadratic p1 p2 => [p1, p2]
  | GrPathCmd.kCubic _p0 p1 p2 p3 => [p1, p2, p3]
  | GrPathCmd.kClose => []

/-- All points fed to the degeneracy classifier by a command stream, in
order. -/
def fedPoints : List GrPathCmd → List GrPoint
  | [] => []
  | cmd :: rest => fedPointsOfCmd cmd ++ fedPoints rest

/-- The command loop of `get_segments`: threads the degeneracy state and the
growing segment array through the command stream, returning both at the end
of the stream. -/
def get_segmentsLoop (conv : CubicFlattener) :
    List GrPathCmd → DegenerateTestData → List Segment →
      DegenerateTestData × List Segment
  | [], data, segs => (data, segs)
  | GrPathCmd.kMove p :: rest, data, segs =>
      get_segmentsLoop conv rest (update_degenerate_test data p) segs
  | GrPathCmd.kLine p1 :: rest, data, segs =>
      get_segmentsLoop conv rest (update_degenerate_test data p1)
        (segs ++ [mkLineSegment p1])
  | GrPathCmd.kQuadratic p1 p2 :: rest, data, segs =>
      get_segmentsLoop conv rest
        (update_degenerate_test (update_degenerate_test data p1) p2)
        (segs ++ [mkQuadSegment p1 p2])
  | GrPathCmd.kCubic p0 p1 p2 p3 :: rest, data, segs =>
      get_segmentsLoop conv rest
        (update_degenerate_test
          (update_degenerate_test (update_degenerate_test data p1) p2) p3)
        (segs ++ quadSegsOfFlattened (conv p0 p1 p2 p3))
  | GrPathCmd.kClose :: rest, data, segs =>
      get_segmentsLoop conv rest data segs

/-- The path decoder (`get_segments`): on a degenerate verdict returns
nothing (`false` in the source); otherwise runs the normal solver and returns
its results through the out-parameters. -/
def get_segments (cmds : List GrPathCmd) (dir : SkPathDirection)
    (conv : CubicFlattener) : Option ComputedVectors :=
  if (get_segmentsLoop conv cmds initDegenerateTestData []).1.isDegenerate then
    none
  else
    some (compute_vectors
      (get_segmentsLoop conv cmds initDegenerateTestData []).2 dir)

/-- Emitted vertex record: position, texture coordinate and the two
signed-distance scalars (`QuadVertex`). -/
structure QuadVertex where
  fPos : GrPoint
  fUV : GrPoint
  fD0 : ℝ
  fD1 : ℝ

instance : Inhabited QuadVertex := ⟨⟨⟨0, 0⟩, ⟨0, 0⟩, 0, 0⟩⟩

/-- The per-segment UV transform of the quad edge group
(`GrPathUtils::quadDesignSpaceToUVCoordsMatrix` followed by
`mapPointsWithStride`, external collaborators): given the three control
points and a position, produce its UV coordinate. -/
def QuadUVMapper : Type := GrPoint → GrPoint → GrPoint → GrPoint → GrPoint

/-- The 4 corner-wedge vertices emitted at the junction between `sega` and
`segb`: the corner itself and three one-unit offsets along the incoming
ending normal, the bisector and the outgoing starting normal.  All carry the
sentinel `-SK_Scalar1` in both distance scalars. -/
def wedgeVerts (sega segb : Segment) : List QuadVertex :=
  [⟨sega.endPt, ⟨0, 0⟩, -SK_Scalar1, -SK_Scalar1⟩,
   ⟨sega.endPt + sega.endNorm, ⟨0, -SK_Scalar1⟩, -SK_Scalar1, -SK_Scalar1⟩,
   ⟨sega.endPt + segb.fMid, ⟨0, -SK_Scalar1⟩, -SK_Scalar1, -SK_Scalar1⟩,
   ⟨sega.endPt + segb.fNorms0, ⟨0, -SK_Scalar1⟩, -SK_Scalar1, -SK_Scalar1⟩]

/-- The 6 corner-wedge indices (two triangles fanned around the corner),
written relative to the vertex cursor `v` and truncated to 16 bits. -/
def wedgeIdxs (v : ℕ) : List ℕ :=
  [v + 0, v + 2, v + 1, v + 0, v + 3, v + 2].map (· % 65536)

/-- The 5 vertices of a line segment's edge group: fan point, the two
endpoints, and both endpoints offset one unit along the edge normal.  The fan
vertex's texcoord carries the fan point's distance to the edge line; all five
carry the sentinel `-SK_Scalar1` in both distance scalars. -/
def lineVerts (fanPt : GrPoint) (sega segb : Segment) : List QuadVertex :=
  let p1 := sega.endPt
  let p2 := segb.fPts0
  let dist := GrPoint.distanceToLineBetween fanPt p1 p2
  [⟨fanPt, ⟨0, dist⟩, -SK_Scalar1, -SK_Scalar1⟩,
   ⟨p1, ⟨0, 0⟩, -SK_Scalar1, -SK_Scalar1⟩,
   ⟨p2, ⟨0, 0⟩, -SK_Scalar1, -SK_Scalar1⟩,
   ⟨p1 + segb.fNorms0, ⟨0, -SK_Scalar1⟩, -SK_Scalar1, -SK_Scalar1⟩,
   ⟨p2 + segb.fNorms0, ⟨0, -SK_Scalar1⟩, -SK_Scalar1, -SK_Scalar1⟩]

/-- The 9 line edge-group indices (one interior triangle, two fade-strip
triangles), relative to the vertex cursor `v`, truncated to 16 bits. -/
def lineIdxs (v : ℕ) : List ℕ :=
  [v + 0, v + 2, v + 1, v + 3, v + 1, v + 2, v + 4, v + 3, v + 2].map (· % 65536)

/-- The 6 vertices of a quad segment's edge group: fan point, the two curve
endpoints, both endpoints offset along their own normals, and the middle
control point offset along the normalised sum of the endpoint normals.
Fan/endpoint vertices carry true tangent-line signed distances; the three
offset vertices carry the large-magnitude sentinel `-GR_ScalarMax / 100` in
both distance scalars.  UVs come from the per-segment transform. -/
def quadVerts (fanPt : GrPoint) (sega segb : Segment) (toUV : QuadUVMapper) :
    List QuadVertex :=
  let q0 := sega.endPt
  let q1 := segb.fPts0
  let q2 := segb.fPts1
  let midVec := GrPoint.normalize (segb.fNorms0 + segb.fNorms1)
  let c0 := segb.fNorms0.dot q0
  let c1 := segb.fNorms1.dot q2
  [⟨fanPt, toUV q0 q1 q2 fanPt,
      -(segb.fNorms0.dot fanPt) + c0, -(segb.fNorms1.dot fanPt) + c1⟩,
   ⟨q0, toUV q0 q1 q2 q0, 0, -(segb.fNorms1.dot q0) + c1⟩,
   ⟨q2, toUV q0 q1 q2 q2, -(segb.fNorms0.dot q2) + c0, 0⟩,
   ⟨q0 + segb.fNorms0, toUV q0 q1 q2 (q0 + segb.fNorms0),
      -(GR_ScalarMax / 100), -(GR_ScalarMax / 100)⟩,
   ⟨q2 + segb.fNorms1, toUV q0 q1 q2 (q2 + segb.fNorms1),
      -(GR_ScalarMax / 100), -(GR_ScalarMax / 100)⟩,
   ⟨q1 + midVec, toUV q0 q1 q2 (q1 + midVec),
      -(GR_ScalarMax / 100), -(GR_ScalarMax / 100)⟩]

/-- The 12 quad edge-group indices (two fade triangles, one apex wedge
triangle, one interior fan triangle), relative to the vertex cursor `v`,
truncated to 16 bits. -/
def quadIdxs (v : ℕ) : List ℕ :=
  [v + 3, v + 1, v + 2, v + 4, v + 3, v + 2, v + 5, v + 3, v + 4,
    v + 0, v + 2, v + 1].map (· % 65536)

/-- The emission loop of `create_vertices` over the cyclic
(previous, current) segment pairs: the write cursors `v` and `i` of the
source are the lengths of the output accumulated so far, so every write lands
at the current end of the buffers. -/
def create_verticesLoop (fanPt : GrPoint) (toUV : QuadUVMapper) :
    List (Segment × Segment) → List QuadVertex → List ℕ →
      List QuadVertex × List ℕ
  | [], verts, idxs => (verts, idxs)
  | (sega, segb) :: rest, verts, idxs =>
      let v := verts.length
      let verts1 := verts ++ wedgeVerts sega segb
      let idxs1 := idxs ++ wedgeIdxs v
      let v2 := v + 4
      match segb.fType with
      | SegType.kLine =>
          create_verticesLoop fanPt toUV rest
            (verts1 ++ lineVerts fanPt sega segb) (idxs1 ++ lineIdxs v2)
      | SegType.kQuad =>
          create_verticesLoop fanPt toUV rest
            (verts1 ++ quadVerts fanPt sega segb toUV) (idxs1 ++ quadIdxs v2)

/-- The mesh builder (`create_vertices`): for each index `a`, emits the
corner wedge at the junction of segment `a` and segment `(a + 1) % count`,
followed by the edge group of segment `(a + 1) % count`. -/
def create_vertices (segments : List Segment) (fanPt : GrPoint)
    (toUV : QuadUVMapper) : List QuadVertex × List ℕ :=
  let n := segments.length
  create_verticesLoop fanPt toUV
    ((List.range n).map fun a =>
      (segments.getD a default, segments.getD ((a + 1) % n) default))
    [] []

/-- Capability flags of the draw target (`GrDrawTarget::Caps`; only the
shader-derivative flag is read). -/
structure GrDrawTargetCaps where
  fShaderDerivativeSupport : Bool

/-- Path fill rules (`GrPathFill`). -/
inductive GrPathFill where
  | kWinding
  | kEvenOdd
  | kInverseWinding
  | kInverseEvenOdd
  | kHairLine
deriving DecidableEq

/-- Modelled from the spec: `GrIsFillInverted` (defined outside `src/`)
reports the inverted fill rules. -/
def GrIsFillInverted (fill : GrPathFill) : Bool :=
  match fill with
  | GrPathFill.kInverseWinding => true
  | GrPathFill.kInverseEvenOdd => true
  | _ => false

/-- The applicability predicate (`GrAAConvexPathRenderer::canDrawPath`):
shader-derivative support, AA requested, non-hairline, non-inverted fill,
convex path. -/
def canDrawPath (targetCaps : GrDrawTargetCaps) (pathIsConvex : Bool)
    (fill : GrPathFill) (antiAlias : Bool) : Bool :=
  targetCaps.fShaderDerivativeSupport && antiAlias &&
    !(decide (GrPathFill.kHairLine = fill)) && !(GrIsFillInverted fill) &&
    pathIsConvex

/-- Backend calls issued by `drawPath` (buffer reservation and draw
submission on the draw target). -/
inductive BackendCall where
  | reserveVertexSpace (vCount : ℕ)
  | reserveIndexSpace (iCount : ℕ)
  | resetVertexSource
  | drawIndexed (vCount iCount : ℕ)
deriving DecidableEq

/-- Result of a `drawPath` invocation: the ordered backend-call trace and the
vertex/index data written into the reserved buffers. -/
structure DrawPathResult where
  calls : List BackendCall
  verts : List QuadVertex
  idxs : List ℕ

/-- The orchestrator (`GrAAConvexPathRenderer::drawPath`): empty paths and
degenerate paths return before any backend call; vertex then index space is
reserved two-phase (the booleans model the external target's success), with
the vertex reservation released if index reservation fails; otherwise the
mesh is emitted and one indexed draw is submitted.  The view-matrix bookkeeping
acts on external state and issues no backend buffer/draw call; `cmds` is the
iterated, already-transformed path. -/
def drawPath (pathIsEmpty : Bool) (cmds : List GrPathCmd)
    (dir : SkPathDirection) (conv : CubicFlattener) (toUV : QuadUVMapper)
    (vertexReserveOk indexReserveOk : Bool) : DrawPathResult :=
  if pathIsEmpty then ⟨[], [], []⟩
  else
    match get_segments cmds dir conv with
    | none => ⟨[], [], []⟩
    | some cv =>
        if !vertexReserveOk then
          ⟨[BackendCall.reserveVertexSpace cv.vCount], [], []⟩
        else if !indexReserveOk then
          ⟨[BackendCall.reserveVertexSpace cv.vCount,
            BackendCall.reserveIndexSpace cv.iCount,
            BackendCall.resetVertexSource], [], []⟩
        else
          let out := create_vertices cv.segs cv.fanPt toUV
          ⟨[BackendCall.reserveVertexSpace cv.vCount,
            BackendCall.reserveIndexSpace cv.iCount,
            BackendCall.drawIndexed cv.vCount cv.iCount],
           out.1, out.2⟩

/-- Specification-side definition (following the spec's words): the polygon
vertices are each segment's endpoint. -/
def specPolygonVerts (segments : List Segment) : List GrPoint :=
  segments.map Segment.endPt

/-- Vertex of a point list at cyclic index `i`. -/
def vertAt (pts : List GrPoint) (i : ℕ) : GrPoint :=
  pts.getD (i % pts.length) default

/-- Specification-side definition: the shoelace sum over consecutive
(wrapping) vertex pairs. -/
def specShoelaceSum (pts : List GrPoint) : ℝ :=
  ∑ i in Finset.range pts.length,
    ((vertAt pts i).fX * (vertAt pts (i + 1)).fY -
      (vertAt pts (i + 1)).fX * (vertAt pts i).fY)

/-- Specification-side definition: the signed polygon area, half the
shoelace sum. -/
def specSignedArea (pts : List GrPoint) : ℝ := specShoelaceSum pts / 2

/-- Specification-side definition: the area-weighted centroid of a simple
polygon. -/
def specWeightedCentroid (pts : List GrPoint) : GrPoint :=
  ⟨(∑ i in Finset.range pts.length,
      ((vertAt pts i).fX + (vertAt pts (i + 1)).fX) *
        ((vertAt pts i).fX * (vertAt pts (i + 1)).fY -
          (vertAt pts (i + 1)).fX * (vertAt pts i).fY)) /
    (6 * specSignedArea pts),
   (∑ i in Finset.range pts.length,
      ((vertAt pts i).fY + (vertAt pts (i + 1)).fY) *
        ((vertAt pts i).fX * (vertAt pts (i + 1)).fY -
          (vertAt pts (i + 1)).fX * (vertAt pts i).fY)) /
    (6 * specSignedArea pts)⟩

/-- Specification-side definition: the unweighted arithmetic mean of the
vertices. -/
def specArithMean (pts : List GrPoint) : GrPoint :=
  ⟨(pts.map GrPoint.fX).sum / pts.length, (pts.map GrPoint.fY).sum / pts.length⟩

/-! Helper lemmas. -/

theorem GrPoint.setOrthog_kLeft_eq_neg (v : GrPoint) :
    v.setOrthog GrSide.kLeft = -(v.setOrthog GrSide.kRight) := by
  ext <;> simp [GrPoint.setOrthog]

theorem GrPoint.length_setOrthog (v : GrPoint) (s : GrSide) :
    (v.setOrthog s).length = v.length := by
  cases s <;>
    · simp only [GrPoint.setOrthog, GrPoint.length, GrPoint.lengthSqd]
      congr 1
      ring

theorem GrPoint.setOrthog_dot_self (v : GrPoint) (s : GrSide) :
    (v.setOrthog s).dot v = 0 := by
  cases s <;>
    · simp only [GrPoint.setOrthog, GrPoint.dot]
      ring

theorem GrPoint.dot_sub (n a b : GrPoint) : n.dot (a - b) = n.dot a - n.dot b := by
  simp only [GrPoint.dot, GrPoint.sub_fX, GrPoint.sub_fY]
  ring

theorem GrPoint.lengthSqd_nonneg (v : GrPoint) : 0 ≤ v.lengthSqd := by
  simp only [GrPoint.lengthSqd]
  have hx := mul_self_nonneg v.fX
  have hy := mul_self_nonneg v.fY
  linarith

theorem GrPoint.length_normalize (v : GrPoint) (h : 0 < v.lengthSqd) :
    v.normalize.length = 1 := by
  have hl : 0 < v.length := Real.sqrt_pos.mpr h
  have hll : v.length * v.length = v.lengthSqd :=
    Real.mul_self_sqrt v.lengthSqd_nonneg
  have hkey : (v.normalize).lengthSqd = 1 := by
    simp only [GrPoint.normalize, GrPoint.lengthSqd] at *
    field_simp
    linarith [hll]
  simp only [GrPoint.length, hkey, Real.sqrt_one]

theorem GrPoint.setOrthog_normalize_dot (v : GrPoint) (s : GrSide) :
    ((v.normalize).setOrthog s).dot v = 0 := by
  cases s <;>
    · simp only [GrPoint.setOrthog, GrPoint.normalize, GrPoint.dot]
      ring

theorem list_sum_map_range {M : Type*} [AddCommMonoid M] (g : ℕ → M) (n : ℕ) :
    ((List.range n).map g).sum = ∑ i in Finset.range n, g i := by
  induction n with
  | zero => simp
  | succ m ih =>
      rw [List.range_succ, Finset.sum_range_succ]
      simp [ih]

theorem foldl_add_eq_sum {α : Type*} (f : α → ℕ) :
    ∀ (l : List α) (a : ℕ), l.foldl (fun acc s => acc + f s) a = a + (l.map f).sum
  | [], a => by simp
  | x :: xs, a => by
      simp only [List.foldl_cons, List.map_cons, List.sum_cons]
      rw [foldl_add_eq_sum f xs (a + f x)]
      ring

theorem sum_range_getD {α : Type*} {M : Type*} [AddCommMonoid M] (d : α)
    (f : α → M) : ∀ l : List α,
    ∑ i in Finset.range l.length, f (l.getD i d) = (l.map f).sum
  | [] => by simp
  | x :: xs => by
      rw [List.length_cons, Finset.sum_range_succ']
      simp only [List.getD_cons_succ, List.getD_cons_zero, List.map_cons,
        List.sum_cons]
      rw [sum_range_getD d f xs]
      exact add_comm _ _

theorem sum_range_cycle {M : Type*} [AddCommMonoid M] (f : ℕ → M) (n : ℕ) :
    ∑ a in Finset.range n, f ((a + 1) % n) = ∑ a in Finset.range n, f a := by
  cases n with
  | zero => simp
  | succ m =>
      rw [Finset.sum_range_succ, Finset.sum_range_succ']
      congr 1
      · apply Finset.sum_congr rfl
        intro a ha
        have ha' : a + 1 < m + 1 := by
          have := Finset.mem_range.mp ha
          omega
        rw [Nat.mod_eq_of_lt ha']
      · rw [Nat.mod_self]

theorem getD_map_range {α : Type*} (f : ℕ → α) (d : α) {b n : ℕ} (hb : b < n) :
    ((List.range n).map f).getD b d = f b := by
  rw [List.getD_eq_getElem?_getD, List.getElem?_map]
  simp [List.getElem?_range hb]

theorem endPt_getD_map (segs : List Segment) (j : ℕ) :
    (segs.map Segment.endPt).getD j default = (segs.getD j default).endPt := by
  rw [List.getD_eq_getElem?_getD, List.getD_eq_getElem?_getD, List.getElem?_map]
  cases h : segs[j]? <;> rfl

theorem vertAt_specPolygonVerts (segs : List Segment) (i : ℕ) :
    vertAt (specPolygonVerts segs) i = endPtAt segs i := by
  simp only [vertAt, specPolygonVerts, endPtAt, List.length_map]
  exact endPt_getD_map segs (i % segs.length)

theorem endPtAt_reverse (segs : List Segment) {i : ℕ} (hi : i < segs.length) :
    endPtAt segs.reverse i = endPtAt segs (segs.length - 1 - i) := by
  simp only [endPtAt, List.length_reverse]
  rw [Nat.mod_eq_of_lt hi, Nat.mod_eq_of_lt (by omega)]
  rw [List.getD_eq_getElem?_getD, List.getD_eq_getElem?_getD,
    List.getElem?_reverse hi]

theorem endPtAt_length (l : List Segment) : endPtAt l l.length = endPtAt l 0 := by
  simp [endPtAt, Nat.mod_self, Nat.zero_mod]

theorem sum_pairs_reverse (g : GrPoint → GrPoint → ℝ)
    (hg : ∀ a b, g a b = -g b a) (segs : List Segment) :
    ∑ i in Finset.range segs.length,
      g (endPtAt segs.reverse i) (endPtAt segs.reverse (i + 1)) =
    -∑ i in Finset.range segs.length, g (endPtAt segs i) (endPtAt segs (i + 1)) := by
  rcases Nat.eq_zero_or_pos segs.length with h0 | hpos
  · rw [h0]
    simp
  · obtain ⟨m, hm⟩ : ∃ m, segs.length = m + 1 := ⟨segs.length - 1, by omega⟩
    rw [hm, Finset.sum_range_succ, Finset.sum_range_succ]
    have hmid : ∑ i in Finset.range m,
        g (endPtAt segs.reverse i) (endPtAt segs.reverse (i + 1)) =
        ∑ j in Finset.range m, g (endPtAt segs (j + 1)) (endPtAt segs j) := by
      rw [← Finset.sum_range_reflect
        (fun j => g (endPtAt segs (j + 1)) (endPtAt segs j)) m]
      apply Finset.sum_congr rfl
      intro i hi
      have him : i < m := Finset.mem_range.mp hi
      rw [endPtAt_reverse segs (by omega : i < segs.length),
        endPtAt_reverse segs (by omega : i + 1 < segs.length)]
      have e1 : segs.length - 1 - i = m - 1 - i + 1 := by omega
      have e2 : segs.length - 1 - (i + 1) = m - 1 - i := by omega
      rw [e1, e2]
    have hlast : g (endPtAt segs.reverse m) (endPtAt segs.reverse (m + 1)) =
        -g (endPtAt segs m) (endPtAt segs (m + 1)) := by
      have hr1 : endPtAt segs.reverse m = endPtAt segs 0 := by
        rw [endPtAt_reverse segs (by omega : m < segs.length)]
        congr 1
        omega
      have hrevlen : segs.reverse.length = m + 1 := by
        rw [List.length_reverse, hm]
      have hr2 : endPtAt segs.reverse (m + 1) = endPtAt segs m := by
        rw [← hrevlen, endPtAt_length]
        rw [endPtAt_reverse segs (by omega : 0 < segs.length)]
        congr 1
        omega
      have hq2 : endPtAt segs (m + 1) = endPtAt segs 0 := by
        rw [← hm, endPtAt_length]
      rw [hr1, hr2, hq2]
      exact hg _ _
    rw [hmid, hlast]
    have : ∑ j in Finset.range m, g (endPtAt segs (j + 1)) (endPtAt segs j) =
        -∑ j in Finset.range m, g (endPtAt segs j) (endPtAt segs (j + 1)) := by
      rw [← Finset.sum_neg_distrib]
      apply Finset.sum_congr rfl
      intro j _
      exact hg _ _
    rw [this]
    ring

theorem sum_coord_reverse (segs : List Segment) (f : GrPoint → ℝ) :
    ∑ i in Finset.range segs.length, f (endPtAt segs.reverse i) =
    ∑ i in Finset.range segs.length, f (endPtAt segs i) := by
  rw [← Finset.sum_range_reflect (fun i => f (endPtAt segs i)) segs.length]
  apply Finset.sum_congr rfl
  intro i hi
  rw [endPtAt_reverse segs (Finset.mem_range.mp hi)]

/-- Reversing the winding (the reversed endpoint cycle) leaves the computed
fan point unchanged: the shoelace sums all flip sign and the two sign flips
cancel in the weighted branch, while the mean branch ignores order. -/
theorem center_of_mass_reverse (segs : List Segment) :
    center_of_mass segs.reverse = center_of_mass segs := by
  have harea : ∑ i in Finset.range segs.length, shoelaceT segs.reverse i =
      -∑ i in Finset.range segs.length, shoelaceT segs i := by
    simp only [shoelaceT]
    exact sum_pairs_reverse (fun a b => a.fX * b.fY - b.fX * a.fY)
      (fun a b => by ring) segs
  have hcx : ∑ i in Finset.range segs.length,
      ((endPtAt segs.reverse i).fX + (endPtAt segs.reverse (i + 1)).fX) *
        shoelaceT segs.reverse i =
      -∑ i in Finset.range segs.length,
        ((endPtAt segs i).fX + (endPtAt segs (i + 1)).fX) * shoelaceT segs i := by
    simp only [shoelaceT]
    exact sum_pairs_reverse
      (fun a b => (a.fX + b.fX) * (a.fX * b.fY - b.fX * a.fY))
      (fun a b => by ring) segs
  have hcy : ∑ i in Finset.range segs.length,
      ((endPtAt segs.reverse i).fY + (endPtAt segs.reverse (i + 1)).fY) *
        shoelaceT segs.reverse i =
      -∑ i in Finset.range segs.length,
        ((endPtAt segs i).fY + (endPtAt segs (i + 1)).fY) * shoelaceT segs i := by
    simp only [shoelaceT]
    exact sum_pairs_reverse
      (fun a b => (a.fY + b.fY) * (a.fX * b.fY - b.fX * a.fY))
      (fun a b => by ring) segs
  have hx : ∑ i in Finset.range segs.length, (endPtAt segs.reverse i).fX =
      ∑ i in Finset.range segs.length, (endPtAt segs i).fX :=
    sum_coord_reverse segs GrPoint.fX
  have hy : ∑ i in Finset.range segs.length, (endPtAt segs.reverse i).fY =
      ∑ i in Finset.range segs.length, (endPtAt segs i).fY :=
    sum_coord_reverse segs GrPoint.fY
  simp only [center_of_mass, List.length_reverse]
  rw [harea, hcx, hcy, hx, hy, abs_neg]
  by_cases hcond : |∑ i in Finset.range segs.length, shoelaceT segs i| <
      SK_ScalarNearlyZero
  · rw [if_pos hcond, if_pos hcond]
  · rw [if_neg hcond, if_neg hcond]
    apply GrPoint.ext <;> · dsimp only
                            ring

theorem computeSegMid_fNorms0 (l : List Segment) (b : ℕ) :
    (computeSegMid l b).fNorms0 = (l.getD b default).fNorms0 := rfl

theorem computeSegMid_fNorms1 (l : List Segment) (b : ℕ) :
    (computeSegMid l b).fNorms1 = (l.getD b default).fNorms1 := rfl

theorem computeSegMid_fType (l : List Segment) (b : ℕ) :
    (computeSegMid l b).fType = (l.getD b default).fType := rfl

theorem computeSegNorms_fNorms0 (segs : List Segment) (side : GrSide) (b : ℕ) :
    (computeSegNorms segs side b).fNorms0 =
      GrPoint.setOrthog (GrPoint.normalize ((segs.getD b default).fPts0 -
        (segs.getD ((b + segs.length - 1) % segs.length) default).endPt))
        side := by
  simp only [computeSegNorms]
  split <;> rfl

theorem computeSegNorms_fType (segs : List Segment) (side : GrSide) (b : ℕ) :
    (computeSegNorms segs side b).fType = (segs.getD b default).fType := by
  simp only [computeSegNorms]
  split <;> · rename_i hty
              rw [hty]

theorem computeSegNorms_fNorms1_quad (segs : List Segment) (side : GrSide)
    (b : ℕ) (h : (segs.getD b default).fType = SegType.kQuad) :
    (computeSegNorms segs side b).fNorms1 =
      GrPoint.setOrthog (GrPoint.normalize ((segs.getD b default).fPts1 -
        (segs.getD b default).fPts0)) side := by
  simp only [computeSegNorms]
  split
  · rename_i hty
    rw [h] at hty
    exact absurd hty (by simp)
  · rfl

theorem compute_vectors_segs_getD (segs : List Segment) (dir : SkPathDirection)
    {b : ℕ} (hb : b < segs.length) :
    (compute_vectors segs dir).segs.getD b default =
      computeSegMid ((List.range segs.length).map
        (computeSegNorms segs (normSideOf dir))) b := by
  simp only [compute_vectors]
  exact getD_map_range _ _ hb

theorem compute_vectors_vCount (segs : List Segment) (dir : SkPathDirection) :
    (compute_vectors segs dir).vCount =
      4 * segs.length + (segs.map edgeVCount).sum := by
  simp only [compute_vectors]
  rw [foldl_add_eq_sum]
  omega

theorem compute_vectors_iCount (segs : List Segment) (dir : SkPathDirection) :
    (compute_vectors segs dir).iCount =
      6 * segs.length + (segs.map edgeICount).sum := by
  simp only [compute_vectors]
  rw [foldl_add_eq_sum]
  omega

theorem map_sum_const_of_forall {α : Type*} (f : α → ℕ) (c : ℕ) :
    ∀ l : List α, (∀ x ∈ l, f x = c) → (l.map f).sum = c * l.length
  | [], _ => by simp
  | x :: xs, h => by
      have hx : f x = c := h x (List.mem_cons_self x xs)
      have hxs := map_sum_const_of_forall f c xs
        (fun y hy => h y (List.mem_cons_of_mem x hy))
      simp only [List.map_cons, List.sum_cons, hx, hxs, List.length_cons]
      ring

theorem mem_mod_map_lt {l : List ℕ} {K x : ℕ} (hl : ∀ y ∈ l, y < K)
    (hx : x ∈ l.map (· % 65536)) : x < K := by
  obtain ⟨y, hy, rfl⟩ := List.mem_map.mp hx
  exact lt_of_le_of_lt (Nat.mod_le y 65536) (hl y hy)

theorem wedgeIdxs_mem_lt {v x : ℕ} (hx : x ∈ wedgeIdxs v) : x < v + 4 := by
  refine mem_mod_map_lt ?_ hx
  intro y hy
  simp only [List.mem_cons, List.not_mem_nil, or_false] at hy
  rcases hy with rfl | rfl | rfl | rfl | rfl | rfl <;> omega

theorem lineIdxs_mem_lt {v x : ℕ} (hx : x ∈ lineIdxs v) : x < v + 5 := by
  refine mem_mod_map_lt ?_ hx
  intro y hy
  simp only [List.mem_cons, List.not_mem_nil, or_false] at hy
  rcases hy with rfl | rfl | rfl | rfl | rfl | rfl | rfl | rfl | rfl <;> omega

theorem quadIdxs_mem_lt {v x : ℕ} (hx : x ∈ quadIdxs v) : x < v + 6 := by
  refine mem_mod_map_lt ?_ hx
  intro y hy
  simp only [List.mem_cons, List.not_mem_nil, or_false] at hy
  rcases hy with rfl | rfl | rfl | rfl | rfl | rfl | rfl | rfl | rfl | rfl |
    rfl | rfl <;> omega

theorem create_verticesLoop_spec (fanPt : GrPoint) (toUV : QuadUVMapper) :
    ∀ (pairs : List (Segment × Segment)) (verts : List QuadVertex)
      (idxs : List ℕ),
    (create_verticesLoop fanPt toUV pairs verts idxs).1.length =
        verts.length + (pairs.map (fun p => 4 + edgeVCount p.2)).sum ∧
    (create_verticesLoop fanPt toUV pairs verts idxs).2.length =
        idxs.length + (pairs.map (fun p => 6 + edgeICount p.2)).sum ∧
    ((∀ x ∈ idxs, x < verts.length) →
      ∀ x ∈ (create_verticesLoop fanPt toUV pairs verts idxs).2,
        x < (create_verticesLoop fanPt toUV pairs verts idxs).1.length)
  | [], verts, idxs => by
      refine ⟨by simp [create_verticesLoop], by simp [create_verticesLoop], ?_⟩
      intro h x hx
      exact h x hx
  | (sega, segb) :: rest, verts, idxs => by
      cases hty : segb.fType with
      | kLine =>
          have hstep : create_verticesLoop fanPt toUV ((sega, segb) :: rest)
              verts idxs = create_verticesLoop fanPt toUV rest
                (verts ++ wedgeVerts sega segb ++ lineVerts fanPt sega segb)
                (idxs ++ wedgeIdxs verts.length ++
                  lineIdxs (verts.length + 4)) := by
            simp only [create_verticesLoop, hty]
          obtain ⟨ih1, ih2, ih3⟩ := create_verticesLoop_spec fanPt toUV rest
            (verts ++ wedgeVerts sega segb ++ lineVerts fanPt sega segb)
            (idxs ++ wedgeIdxs verts.length ++ lineIdxs (verts.length + 4))
          refine ⟨?_, ?_, ?_⟩
          · rw [hstep, ih1]
            simp [wedgeVerts, lineVerts, edgeVCount, hty]
            omega
          · rw [hstep, ih2]
            simp [wedgeIdxs, lineIdxs, edgeICount, hty]
            omega
          · intro h
            rw [hstep]
            apply ih3
            intro x hx
            simp only [List.append_assoc, List.mem_append] at hx
            simp only [List.length_append, List.length_append]
            have h4 : (wedgeVerts sega segb).length = 4 := rfl
            have h5 : (lineVerts fanPt sega segb).length = 5 := rfl
            rcases hx with hx | hx | hx
            · have := h x hx
              omega
            · have := wedgeIdxs_mem_lt hx
              omega
            · have := lineIdxs_mem_lt hx
              omega
      | kQuad =>
          have hstep : create_verticesLoop fanPt toUV ((sega, segb) :: rest)
              verts idxs = create_verticesLoop fanPt toUV rest
                (verts ++ wedgeVerts sega segb ++ quadVerts fanPt sega segb toUV)
                (idxs ++ wedgeIdxs verts.length ++
                  quadIdxs (verts.length + 4)) := by
            simp only [create_verticesLoop, hty]
          obtain ⟨ih1, ih2, ih3⟩ := create_verticesLoop_spec fanPt toUV rest
            (verts ++ wedgeVerts sega segb ++ quadVerts fanPt sega segb toUV)
            (idxs ++ wedgeIdxs verts.length ++ quadIdxs (verts.length + 4))
          refine ⟨?_, ?_, ?_⟩
          · rw [hstep, ih1]
            simp [wedgeVerts, quadVerts, edgeVCount, hty]
            omega
          · rw [hstep, ih2]
            simp [wedgeIdxs, quadIdxs, edgeICount, hty]
            omega
          · intro h
            rw [hstep]
            apply ih3
            intro x hx
            simp only [List.append_assoc, List.mem_append] at hx
            simp only [List.length_append, List.length_append]
            have h4 : (wedgeVerts sega segb).length = 4 := rfl
            have h6 : (quadVerts fanPt sega segb toUV).length = 6 := rfl
            rcases hx with hx | hx | hx
            · have := h x hx
              omega
            · have := wedgeIdxs_mem_lt hx
              omega
            · have := quadIdxs_mem_lt hx
              omega

theorem get_segmentsLoop_fst (conv : CubicFlattener) :
    ∀ (cmds : List GrPathCmd) (data : DegenerateTestData) (segs : List Segment),
    (get_segmentsLoop conv cmds data segs).1 =
      (fedPoints cmds).foldl update_degenerate_test data
  | [], data, segs => rfl
  | GrPathCmd.kMove p :: rest, data, segs => by
      simp only [get_segmentsLoop, fedPoints, fedPointsOfCmd, List.foldl_append,
        List.foldl_cons, List.foldl_nil]
      exact get_segmentsLoop_fst conv rest _ _
  | GrPathCmd.kLine p1 :: rest, data, segs => by
      simp only [get_segmentsLoop, fedPoints, fedPointsOfCmd, List.foldl_append,
        List.foldl_cons, List.foldl_nil]
      exact get_segmentsLoop_fst conv rest _ _
  | GrPathCmd.kQuadratic p1 p2 :: rest, data, segs => by
      simp only [get_segmentsLoop, fedPoints, fedPointsOfCmd, List.foldl_append,
        List.foldl_cons, List.foldl_nil]
      exact get_segmentsLoop_fst conv rest _ _
  | GrPathCmd.kCubic p0 p1 p2 p3 :: rest, data, segs => by
      simp only [get_segmentsLoop, fedPoints, fedPointsOfCmd, List.foldl_append,
        List.foldl_cons, List.foldl_nil]
      exact get_segmentsLoop_fst conv rest _ _
  | GrPathCmd.kClose :: rest, data, segs => by
      simp only [get_segmentsLoop, fedPoints, fedPointsOfCmd, List.foldl_append,
        List.foldl_cons, List.foldl_nil]
      exact get_segmentsLoop_fst conv rest _ _

theorem get_segments_eq_none_iff (cmds : List GrPathCmd)
    (dir : SkPathDirection) (conv : CubicFlattener) :
    get_segments cmds dir conv = none ↔
      ((fedPoints cmds).foldl update_degenerate_test
        initDegenerateTestData).isDegenerate = true := by
  rcases hb : ((fedPoints cmds).foldl update_degenerate_test
      initDegenerateTestData).isDegenerate with _ | _
  · have : (get_segmentsLoop conv cmds initDegenerateTestData []).1.isDegenerate
        = false := by
      rw [get_segmentsLoop_fst, hb]
    simp [get_segments, this]
  · have : (get_segmentsLoop conv cmds initDegenerateTestData []).1.isDegenerate
        = true := by
      rw [get_segmentsLoop_fst, hb]
    simp [get_segments, this]

theorem get_segments_eq_some (cmds : List GrPathCmd) (dir : SkPathDirection)
    (conv : CubicFlattener)
    (h : ((fedPoints cmds).foldl update_degenerate_test
      initDegenerateTestData).isDegenerate = false) :
    get_segments cmds dir conv =
      some (compute_vectors
        (get_segmentsLoop conv cmds initDegenerateTestData []).2 dir) := by
  have hl : (get_segmentsLoop conv cmds initDegenerateTestData []).1.isDegenerate
      = false := by
    rw [get_segmentsLoop_fst, h]
  simp [get_segments, hl]

/-! Single-step evaluation lemmas for the classifier, and concrete inputs. -/

theorem update_init (p : GrPoint) :
    update_degenerate_test initDegenerateTestData p =
      ⟨DegenStage.kPoint, p, ⟨0, 0⟩, 0⟩ := rfl

theorem update_kPoint_step (first pt lnorm : GrPoint) (lc : ℝ)
    (h : pt.distanceToSqd first > degenerateTOL_SQD) :
    update_degenerate_test ⟨DegenStage.kPoint, first, lnorm, lc⟩ pt =
      ⟨DegenStage.kLine, first,
        GrPoint.setOrthog (GrPoint.normalize (pt - first)) GrSide.kLeft,
        -((GrPoint.setOrthog (GrPoint.normalize (pt - first))
          GrSide.kLeft).dot first)⟩ := by
  simp only [update_degenerate_test]
  rw [if_pos h]

theorem update_kLine_step (first lnorm : GrPoint) (lc : ℝ) (pt : GrPoint)
    (h : |lnorm.dot pt + lc| > degenerateTOL) :
    update_degenerate_test ⟨DegenStage.kLine, first, lnorm, lc⟩ pt =
      ⟨DegenStage.kNonDegenerate, first, lnorm, lc⟩ := by
  simp only [update_degenerate_test]
  rw [if_pos h]

theorem update_kNonDegenerate (first lnorm : GrPoint) (lc : ℝ) (pt : GrPoint) :
    update_degenerate_test ⟨DegenStage.kNonDegenerate, first, lnorm, lc⟩ pt =
      ⟨DegenStage.kNonDegenerate, first, lnorm, lc⟩ := rfl

theorem update_kPoint_stay (first lnorm : GrPoint) (lc : ℝ) (pt : GrPoint)
    (h : ¬ pt.distanceToSqd first > degenerateTOL_SQD) :
    update_degenerate_test ⟨DegenStage.kPoint, first, lnorm, lc⟩ pt =
      ⟨DegenStage.kPoint, first, lnorm, lc⟩ := by
  simp only [update_degenerate_test]
  rw [if_neg h]

theorem update_kLine_stay (first lnorm : GrPoint) (lc : ℝ) (pt : GrPoint)
    (h : ¬ |lnorm.dot pt + lc| > degenerateTOL) :
    update_degenerate_test ⟨DegenStage.kLine, first, lnorm, lc⟩ pt =
      ⟨DegenStage.kLine, first, lnorm, lc⟩ := by
  simp only [update_degenerate_test]
  rw [if_neg h]

/-- A concrete cubic flattener producing no quads (the flattener is an
external collaborator; the claims hold for every flattener). -/
def convZero : CubicFlattener := fun _ _ _ _ => []

/-- A concrete cubic flattener echoing three of its control points. -/
def convEcho : CubicFlattener := fun p0 p1 p2 _p3 => [p0, p1, p2]

/-- A concrete UV mapper (the UV matrix is an external collaborator; the
claims hold for every mapper). -/
def uvZero : QuadUVMapper := fun _ _ _ _ => ⟨0, 0⟩

/-- Unit square command stream: move, three lines, the force-closing line
back to the start, close. -/
def squareCmds : List GrPathCmd :=
  [GrPathCmd.kMove ⟨0, 0⟩, GrPathCmd.kLine ⟨1, 0⟩, GrPathCmd.kLine ⟨1, 1⟩,
   GrPathCmd.kLine ⟨0, 1⟩, GrPathCmd.kLine ⟨0, 0⟩, GrPathCmd.kClose]

/-- The unit square's decoded segment array (what `get_segments` pushes for
`squareCmds`). -/
def squareSegs : List Segment :=
  [mkLineSegment ⟨1, 0⟩, mkLineSegment ⟨1, 1⟩, mkLineSegment ⟨0, 1⟩,
   mkLineSegment ⟨0, 0⟩]

/-- A concrete right triangle command stream (clearly non-degenerate). -/
def triCmds : List GrPathCmd :=
  [GrPathCmd.kMove ⟨0, 0⟩, GrPathCmd.kLine ⟨4, 0⟩, GrPathCmd.kLine ⟨0, 4⟩,
   GrPathCmd.kLine ⟨0, 0⟩, GrPathCmd.kClose]

/-- A command stream all of whose fed points lie within 1/16 of the x-axis,
yet which the incremental classifier judges non-degenerate: the derived line
goes through (0, 0) and (0.08, 0.06), and (10, 0) is far from that line. -/
def nearLineCmds : List GrPathCmd :=
  [GrPathCmd.kMove ⟨0, 0⟩, GrPathCmd.kLine ⟨0.08, 0.06⟩,
   GrPathCmd.kLine ⟨10, 0⟩, GrPathCmd.kLine ⟨0, 0⟩, GrPathCmd.kClose]

/-- A single-quad segment array. -/
def oneQuadSegs : List Segment := [mkQuadSegment ⟨1, 0⟩ ⟨2, 1⟩]

theorem triCmds_not_degenerate :
    ((fedPoints triCmds).foldl update_degenerate_test
      initDegenerateTestData).isDegenerate = false := by
  have hfed : fedPoints triCmds =
      [⟨0, 0⟩, ⟨4, 0⟩, ⟨0, 4⟩, ⟨0, 0⟩] := rfl
  rw [hfed]
  simp only [List.foldl_cons, List.foldl_nil]
  rw [update_init]
  rw [update_kPoint_step ⟨0, 0⟩ ⟨4, 0⟩ ⟨0, 0⟩ 0
    (by norm_num [GrPoint.distanceToSqd, degenerateTOL_SQD, degenerateTOL,
      SK_Scalar1])]
  have hnorm : GrPoint.setOrthog
      (GrPoint.normalize ((⟨4, 0⟩ : GrPoint) - ⟨0, 0⟩)) GrSide.kLeft =
      ⟨0, -1⟩ := by
    have hsub : ((⟨4, 0⟩ : GrPoint) - ⟨0, 0⟩) = ⟨4, 0⟩ := by
      ext <;> norm_num
    rw [hsub]
    have hlen : GrPoint.length ⟨4, 0⟩ = 4 := by
      simp only [GrPoint.length, GrPoint.lengthSqd]
      rw [show ((4 : ℝ) * 4 + 0 * 0) = 4 ^ 2 by norm_num]
      exact Real.sqrt_sq (by norm_num)
    simp only [GrPoint.normalize, hlen, GrPoint.setOrthog]
    ext <;> norm_num
  rw [hnorm]
  have hc : -((⟨0, -1⟩ : GrPoint).dot ⟨0, 0⟩) = 0 := by
    norm_num [GrPoint.dot]
  rw [hc]
  rw [update_kLine_step ⟨0, 0⟩ ⟨0, -1⟩ 0 ⟨0, 4⟩ ?hgt]
  case hgt =>
    have hval : (⟨0, -1⟩ : GrPoint).dot ⟨0, 4⟩ + 0 = -4 := by
      norm_num [GrPoint.dot]
    rw [hval]
    exact lt_abs.mpr (Or.inr (by norm_num [degenerateTOL, SK_Scalar1]))
  rw [update_kNonDegenerate]
  rfl

theorem nearLineCmds_not_degenerate :
    ((fedPoints nearLineCmds).foldl update_degenerate_test
      initDegenerateTestData).isDegenerate = false := by
  have hfed : fedPoints nearLineCmds =
      [⟨0, 0⟩, ⟨0.08, 0.06⟩, ⟨10, 0⟩, ⟨0, 0⟩] := rfl
  rw [hfed]
  simp only [List.foldl_cons, List.foldl_nil]
  rw [update_init]
  rw [update_kPoint_step ⟨0, 0⟩ ⟨0.08, 0.06⟩ ⟨0, 0⟩ 0
    (by norm_num [GrPoint.distanceToSqd, degenerateTOL_SQD, degenerateTOL,
      SK_Scalar1])]
  have hnorm : GrPoint.setOrthog
      (GrPoint.normalize ((⟨0.08, 0.06⟩ : GrPoint) - ⟨0, 0⟩)) GrSide.kLeft =
      ⟨0.6, -0.8⟩ := by
    have hsub : ((⟨0.08, 0.06⟩ : GrPoint) - ⟨0, 0⟩) = ⟨0.08, 0.06⟩ := by
      ext <;> norm_num
    rw [hsub]
    have hlen : GrPoint.length ⟨0.08, 0.06⟩ = 0.1 := by
      simp only [GrPoint.length, GrPoint.lengthSqd]
      rw [show ((0.08 : ℝ) * 0.08 + 0.06 * 0.06) = 0.1 ^ 2 by norm_num]
      exact Real.sqrt_sq (by norm_num)
    simp only [GrPoint.normalize, hlen, GrPoint.setOrthog]
    ext <;> norm_num
  rw [hnorm]
  have hc : -((⟨0.6, -0.8⟩ : GrPoint).dot ⟨0, 0⟩) = 0 := by
    norm_num [GrPoint.dot]
  rw [hc]
  rw [update_kLine_step ⟨0, 0⟩ ⟨0.6, -0.8⟩ 0 ⟨10, 0⟩ ?hgt]
  case hgt =>
    have hval : (⟨0.6, -0.8⟩ : GrPoint).dot ⟨10, 0⟩ + 0 = 6 := by
      norm_num [GrPoint.dot]
    rw [hval]
    exact lt_abs.mpr (Or.inl (by norm_num [degenerateTOL, SK_Scalar1]))
  rw [update_kNonDegenerate]
  rfl

/-! Claim theorems. -/

/-- C3: the degeneracy classifier is a state machine over
Initial/SinglePoint/Collinear/NonDegenerate with tolerance 1/16: in Initial
every fed point is stored as anchor and the state becomes SinglePoint; in
SinglePoint the state becomes Collinear exactly when the fed point's squared
distance to the anchor exceeds the tolerance squared, deriving a
unit-normal-plus-offset line equation through anchor and point; in Collinear
the state becomes NonDegenerate exactly when the point's distance from that
line exceeds the tolerance; NonDegenerate is absorbing. -/
theorem c3_degeneracy_state_machine (d : DegenerateTestData) (pt : GrPoint) :
    degenerateTOL = 1 / 16 ∧
    degenerateTOL_SQD = degenerateTOL * degenerateTOL ∧
    (d.fStage = DegenStage.kInitial →
      (update_degenerate_test d pt).fStage = DegenStage.kPoint ∧
      (update_degenerate_test d pt).fFirstPoint = pt) ∧
    (d.fStage = DegenStage.kPoint →
      ((update_degenerate_test d pt).fStage = DegenStage.kLine ↔
        pt.distanceToSqd d.fFirstPoint > degenerateTOL_SQD) ∧
      (pt.distanceToSqd d.fFirstPoint > degenerateTOL_SQD →
        ((update_degenerate_test d pt).fLineNormal.length = 1 ∧
          (update_degenerate_test d pt).fLineNormal.dot d.fFirstPoint +
            (update_degenerate_test d pt).fLineC = 0 ∧
          (update_degenerate_test d pt).fLineNormal.dot pt +
            (update_degenerate_test d pt).fLineC = 0))) ∧
    (d.fStage = DegenStage.kLine →
      ((update_degenerate_test d pt).fStage = DegenStage.kNonDegenerate ↔
        |d.fLineNormal.dot pt + d.fLineC| > degenerateTOL)) ∧
    (d.fStage = DegenStage.kNonDegenerate → update_degenerate_test d pt = d) := by
  obtain ⟨st, fp, ln, lc⟩ := d
  dsimp only
  refine ⟨by norm_num [degenerateTOL, SK_Scalar1], rfl, ?_, ?_, ?_, ?_⟩
  · intro h
    subst h
    exact ⟨rfl, rfl⟩
  · intro h
    subst h
    constructor
    · by_cases hc : pt.distanceToSqd fp > degenerateTOL_SQD
      · simp only [update_degenerate_test]
        rw [if_pos hc]
        exact iff_of_true rfl hc
      · simp only [update_degenerate_test]
        rw [if_neg hc]
        exact iff_of_false (by simp) hc
    · intro hc
      simp only [update_degenerate_test]
      rw [if_pos hc]
      refine ⟨?_, ?_, ?_⟩
      · rw [GrPoint.length_setOrthog]
        apply GrPoint.length_normalize
        have hsqd : (pt - fp).lengthSqd = pt.distanceToSqd fp := by
          simp [GrPoint.lengthSqd, GrPoint.distanceToSqd]
        have h0 : (0 : ℝ) < degenerateTOL_SQD := by
          norm_num [degenerateTOL_SQD, degenerateTOL, SK_Scalar1]
        rw [hsqd]
        linarith
      · ring
      · have hdot := GrPoint.setOrthog_normalize_dot (pt - fp) GrSide.kLeft
        rw [GrPoint.dot_sub] at hdot
        dsimp only
        linarith
  · intro h
    subst h
    by_cases hc : |GrPoint.dot ln pt + lc| > degenerateTOL
    · simp only [update_degenerate_test]
      rw [if_pos hc]
      exact iff_of_true rfl hc
    · simp only [update_degenerate_test]
      rw [if_neg hc]
      exact iff_of_false (by simp) hc
  · intro h
    subst h
    rfl

/-- Witness for C3: from stage SinglePoint, feeding (1, 0) with anchor
(0, 0) transitions to Collinear, by the theorem's SinglePoint clause. -/
theorem c3_witness :
    (update_degenerate_test ⟨DegenStage.kPoint, ⟨0, 0⟩, ⟨0, 0⟩, 0⟩
      ⟨1, 0⟩).fStage = DegenStage.kLine :=
  ((c3_degeneracy_state_machine ⟨DegenStage.kPoint, ⟨0, 0⟩, ⟨0, 0⟩, 0⟩
    ⟨1, 0⟩).2.2.2.1 rfl).1.mpr
    (by norm_num [GrPoint.distanceToSqd, degenerateTOL_SQD, degenerateTOL,
      SK_Scalar1])

/-- C5: the applicability predicate holds exactly when the target reports
shader-derivative support, anti-aliasing is requested, the fill is not
hairline, the fill is not inverted, and the path is convex. -/
theorem c5_canDrawPath_characterisation (targetCaps : GrDrawTargetCaps)
    (pathIsConvex : Bool) (fill : GrPathFill) (antiAlias : Bool) :
    canDrawPath targetCaps pathIsConvex fill antiAlias = true ↔
      (targetCaps.fShaderDerivativeSupport = true ∧ antiAlias = true ∧
        fill ≠ GrPathFill.kHairLine ∧ GrIsFillInverted fill = false ∧
        pathIsConvex = true) := by
  obtain ⟨sd⟩ := targetCaps
  cases sd <;> cases antiAlias <;> cases pathIsConvex <;> cases fill <;>
    simp [canDrawPath, GrIsFillInverted]

/-- Witness for C5: a capable target, AA on, winding fill, convex path. -/
theorem c5_witness :
    canDrawPath ⟨true⟩ true GrPathFill.kWinding true = true :=
  (c5_canDrawPath_characterisation ⟨true⟩ true GrPathFill.kWinding true).mpr
    ⟨rfl, rfl, by simp, rfl, rfl⟩

/-- C2: the sizing pass accumulates 5 vertices / 9 indices per line edge
group, 6 / 12 per quad edge group and 4 / 6 per corner wedge; an all-line
N-gon totals 9N vertices and 15N indices; the unit square yields 36
vertices, 60 indices and centroid (1/2, 1/2). -/
theorem c2_buffer_sizing :
    (∀ (segs : List Segment) (dir : SkPathDirection),
      (compute_vectors segs dir).vCount =
          4 * segs.length + (segs.map edgeVCount).sum ∧
      (compute_vectors segs dir).iCount =
          6 * segs.length + (segs.map edgeICount).sum) ∧
    (∀ (segs : List Segment) (dir : SkPathDirection),
      (∀ s ∈ segs, s.fType = SegType.kLine) →
      (compute_vectors segs dir).vCount = 9 * segs.length ∧
      (compute_vectors segs dir).iCount = 15 * segs.length) ∧
    (compute_vectors squareSegs SkPathDirection.kCCW).vCount = 36 ∧
    (compute_vectors squareSegs SkPathDirection.kCCW).iCount = 60 ∧
    (compute_vectors squareSegs SkPathDirection.kCCW).fanPt = ⟨1 / 2, 1 / 2⟩ := by
  refine ⟨fun segs dir => ⟨compute_vectors_vCount segs dir,
      compute_vectors_iCount segs dir⟩, ?_, rfl, rfl, ?_⟩
  · intro segs dir h
    constructor
    · rw [compute_vectors_vCount,
        map_sum_const_of_forall edgeVCount 5 segs
          (fun s hs => by simp [edgeVCount, h s hs])]
      omega
    · rw [compute_vectors_iCount,
        map_sum_const_of_forall edgeICount 9 segs
          (fun s hs => by simp [edgeICount, h s hs])]
      omega
  · have harea : ∑ i in Finset.range squareSegs.length,
        shoelaceT squareSegs i = 2 := by
      have hl : squareSegs.length = 4 := rfl
      rw [hl, Finset.sum_range_succ, Finset.sum_range_succ,
        Finset.sum_range_succ, Finset.sum_range_succ, Finset.sum_range_zero]
      norm_num [shoelaceT, endPtAt, squareSegs, mkLineSegment, Segment.endPt,
        List.getD_cons_zero, List.getD_cons_succ]
    have hcx : ∑ i in Finset.range squareSegs.length,
        ((endPtAt squareSegs i).fX + (endPtAt squareSegs (i + 1)).fX) *
          shoelaceT squareSegs i = 3 := by
      have hl : squareSegs.length = 4 := rfl
      rw [hl, Finset.sum_range_succ, Finset.sum_range_succ,
        Finset.sum_range_succ, Finset.sum_range_succ, Finset.sum_range_zero]
      norm_num [shoelaceT, endPtAt, squareSegs, mkLineSegment, Segment.endPt,
        List.getD_cons_zero, List.getD_cons_succ]
    have hcy : ∑ i in Finset.range squareSegs.length,
        ((endPtAt squareSegs i).fY + (endPtAt squareSegs (i + 1)).fY) *
          shoelaceT squareSegs i = 3 := by
      have hl : squareSegs.length = 4 := rfl
      rw [hl, Finset.sum_range_succ, Finset.sum_range_succ,
        Finset.sum_range_succ, Finset.sum_range_succ, Finset.sum_range_zero]
      norm_num [shoelaceT, endPtAt, squareSegs, mkLineSegment, Segment.endPt,
        List.getD_cons_zero, List.getD_cons_succ]
    show center_of_mass squareSegs = ⟨1 / 2, 1 / 2⟩
    simp only [center_of_mass]
    rw [harea, hcx, hcy]
    rw [if_neg (by norm_num [SK_ScalarNearlyZero, SK_Scalar1])]
    ext <;> norm_num [SK_Scalar1]

/-- Witness for C2: the unit square is an all-line 4-gon, so the all-line
clause gives 36 vertices. -/
theorem c2_witness :
    (compute_vectors squareSegs SkPathDirection.kCW).vCount =
      9 * squareSegs.length :=
  (c2_buffer_sizing.2.1 squareSegs SkPathDirection.kCW
    (by
      intro s hs
      simp only [squareSegs, List.mem_cons, List.not_mem_nil, or_false] at hs
      rcases hs with rfl | rfl | rfl | rfl <;> rfl)).1

/-- C6: computing vectors with winding CW instead of CCW negates every
per-point outward normal (the first normal always, the second one for quads,
which are the only segments holding two points), while the fan point is the
same for both windings and the centroid is unchanged by reversing the
winding of the polygon. -/
theorem c6_winding_negates_normals (segs : List Segment) {b : ℕ}
    (hb : b < segs.length) :
    ((compute_vectors segs SkPathDirection.kCW).segs.getD b default).fNorms0 =
      -((compute_vectors segs SkPathDirection.kCCW).segs.getD b
        default).fNorms0 ∧
    ((segs.getD b default).fType = SegType.kQuad →
      ((compute_vectors segs SkPathDirection.kCW).segs.getD b
          default).fNorms1 =
        -((compute_vectors segs SkPathDirection.kCCW).segs.getD b
          default).fNorms1) ∧
    (compute_vectors segs SkPathDirection.kCW).fanPt =
      (compute_vectors segs SkPathDirection.kCCW).fanPt ∧
    center_of_mass segs.reverse = center_of_mass segs := by
  have hcw := compute_vectors_segs_getD segs SkPathDirection.kCW hb
  have hccw := compute_vectors_segs_getD segs SkPathDirection.kCCW hb
  refine ⟨?_, ?_, rfl, center_of_mass_reverse segs⟩
  · rw [hcw, hccw, computeSegMid_fNorms0, computeSegMid_fNorms0,
      getD_map_range _ _ hb, getD_map_range _ _ hb,
      computeSegNorms_fNorms0, computeSegNorms_fNorms0]
    simp only [normSideOf]
    exact GrPoint.setOrthog_kLeft_eq_neg _
  · intro hq
    rw [hcw, hccw, computeSegMid_fNorms1, computeSegMid_fNorms1,
      getD_map_range _ _ hb, getD_map_range _ _ hb,
      computeSegNorms_fNorms1_quad _ _ _ hq,
      computeSegNorms_fNorms1_quad _ _ _ hq]
    simp only [normSideOf]
    exact GrPoint.setOrthog_kLeft_eq_neg _

/-- Witness for C6: the unit square's first normal under CW winding is the
negation of its CCW counterpart. -/
theorem c6_witness :
    ((compute_vectors squareSegs SkPathDirection.kCW).segs.getD 0
        default).fNorms0 =
      -((compute_vectors squareSegs SkPathDirection.kCCW).segs.getD 0
        default).fNorms0 :=
  (c6_winding_negates_normals squareSegs (by norm_num [squareSegs])).1

theorem length_specPolygonVerts (segs : List Segment) :
    (specPolygonVerts segs).length = segs.length := by
  simp [specPolygonVerts]

theorem specShoelaceSum_eq (segs : List Segment) :
    specShoelaceSum (specPolygonVerts segs) =
      ∑ i in Finset.range segs.length, shoelaceT segs i := by
  simp only [specShoelaceSum, length_specPolygonVerts]
  apply Finset.sum_congr rfl
  intro i _
  rw [vertAt_specPolygonVerts segs i, vertAt_specPolygonVerts segs (i + 1)]
  rfl

theorem sum_endPtAt_eq (segs : List Segment) (f : GrPoint → ℝ) :
    ∑ i in Finset.range segs.length, f (endPtAt segs i) =
      (segs.map fun s => f s.endPt).sum := by
  have hcongr : ∀ i ∈ Finset.range segs.length,
      f (endPtAt segs i) = (fun s => f s.endPt) (segs.getD i default) := by
    intro i hi
    simp [endPtAt, Nat.mod_eq_of_lt (Finset.mem_range.mp hi)]
  rw [Finset.sum_congr rfl hcongr]
  exact sum_range_getD default (fun s => f s.endPt) segs

theorem map_fX_specPolygonVerts (segs : List Segment) :
    (specPolygonVerts segs).map GrPoint.fX = segs.map fun s => s.endPt.fX := by
  simp [specPolygonVerts, List.map_map, Function.comp]

theorem map_fY_specPolygonVerts (segs : List Segment) :
    (specPolygonVerts segs).map GrPoint.fY = segs.map fun s => s.endPt.fY := by
  simp [specPolygonVerts, List.map_map, Function.comp]

/-- C4: the fan point is the area-weighted shoelace centroid of the
segment-endpoint polygon; when the shoelace sum is smaller in magnitude than
the near-zero epsilon, the fan point is instead the arithmetic mean of the
endpoints; and for nonempty input both branch divisors are nonzero (the
real-arithmetic reading of "never NaN"). -/
theorem c4_centroid_refinement (segs : List Segment) :
    (¬ |specShoelaceSum (specPolygonVerts segs)| < SK_ScalarNearlyZero →
      center_of_mass segs = specWeightedCentroid (specPolygonVerts segs)) ∧
    (|specShoelaceSum (specPolygonVerts segs)| < SK_ScalarNearlyZero →
      center_of_mass segs = specArithMean (specPolygonVerts segs)) ∧
    (segs ≠ [] → (segs.length : ℝ) ≠ 0) ∧
    (¬ |specShoelaceSum (specPolygonVerts segs)| < SK_ScalarNearlyZero →
      3 * ∑ i in Finset.range segs.length, shoelaceT segs i ≠ 0) := by
  have hss := specShoelaceSum_eq segs
  refine ⟨?_, ?_, ?_, ?_⟩
  · intro h
    rw [hss] at h
    have hwx : ∑ i in Finset.range segs.length,
        ((vertAt (specPolygonVerts segs) i).fX +
          (vertAt (specPolygonVerts segs) (i + 1)).fX) *
          ((vertAt (specPolygonVerts segs) i).fX *
              (vertAt (specPolygonVerts segs) (i + 1)).fY -
            (vertAt (specPolygonVerts segs) (i + 1)).fX *
              (vertAt (specPolygonVerts segs) i).fY) =
        ∑ i in Finset.range segs.length,
          ((endPtAt segs i).fX + (endPtAt segs (i + 1)).fX) *
            shoelaceT segs i := by
      apply Finset.sum_congr rfl
      intro i _
      rw [vertAt_specPolygonVerts segs i, vertAt_specPolygonVerts segs (i + 1)]
      rfl
    have hwy : ∑ i in Finset.range segs.length,
        ((vertAt (specPolygonVerts segs) i).fY +
          (vertAt (specPolygonVerts segs) (i + 1)).fY) *
          ((vertAt (specPolygonVerts segs) i).fX *
              (vertAt (specPolygonVerts segs) (i + 1)).fY -
            (vertAt (specPolygonVerts segs) (i + 1)).fX *
              (vertAt (specPolygonVerts segs) i).fY) =
        ∑ i in Finset.range segs.length,
          ((endPtAt segs i).fY + (endPtAt segs (i + 1)).fY) *
            shoelaceT segs i := by
      apply Finset.sum_congr rfl
      intro i _
      rw [vertAt_specPolygonVerts segs i, vertAt_specPolygonVerts segs (i + 1)]
      rfl
    simp only [center_of_mass]
    rw [if_neg h]
    simp only [specWeightedCentroid, length_specPolygonVerts, specSignedArea,
      hss, hwx, hwy]
    ext <;> · dsimp only
              simp only [SK_Scalar1]
              ring
  · intro h
    rw [hss] at h
    simp only [center_of_mass]
    rw [if_pos h]
    simp only [specArithMean, length_specPolygonVerts, map_fX_specPolygonVerts,
      map_fY_specPolygonVerts]
    rw [show (∑ i in Finset.range segs.length, (endPtAt segs i).fX) =
        (segs.map fun s => s.endPt.fX).sum from sum_endPtAt_eq segs GrPoint.fX,
      show (∑ i in Finset.range segs.length, (endPtAt segs i).fY) =
        (segs.map fun s => s.endPt.fY).sum from sum_endPtAt_eq segs GrPoint.fY]
    ext <;> · dsimp only
              simp only [SK_Scalar1]
              ring
  · intro h
    have hlen : segs.length ≠ 0 := fun hl => h (List.length_eq_zero.mp hl)
    exact_mod_cast Nat.cast_ne_zero.mpr hlen
  · intro h
    rw [hss] at h
    have heps : (0 : ℝ) < SK_ScalarNearlyZero := by
      norm_num [SK_ScalarNearlyZero, SK_Scalar1]
    have habs := not_lt.mp h
    have hne : (∑ i in Finset.range segs.length, shoelaceT segs i) ≠ 0 := by
      intro h0
      rw [h0] at habs
      simp only [abs_zero] at habs
      linarith
    exact mul_ne_zero (by norm_num) hne

/-- A three-collinear-point segment array: its shoelace sum is zero. -/
def collinearSegs : List Segment :=
  [mkLineSegment ⟨0, 0⟩, mkLineSegment ⟨1, 0⟩, mkLineSegment ⟨2, 0⟩]

/-- Witness for C4: on three collinear points the centroid falls back to the
arithmetic mean, by the theorem's fallback clause. -/
theorem c4_witness :
    center_of_mass collinearSegs =
      specArithMean (specPolygonVerts collinearSegs) :=
  (c4_centroid_refinement collinearSegs).2.1
    (by
      rw [specShoelaceSum_eq]
      norm_num [Finset.sum_range_succ, shoelaceT, endPtAt, collinearSegs,
        mkLineSegment, Segment.endPt, List.getD_cons_zero,
        List.getD_cons_succ, SK_ScalarNearlyZero, SK_Scalar1])

/-- C9: the mesh builder writes exactly the vertex and index counts
precomputed by the sizing pass (the output lengths equal `vCount` and
`iCount`), and every emitted 16-bit index value is below the total vertex
count, so every triangle references only emitted vertices. -/
theorem c9_exact_emission (segs : List Segment) (fanPt : GrPoint)
    (toUV : QuadUVMapper) (dir : SkPathDirection) :
    (create_vertices segs fanPt toUV).1.length =
        (compute_vectors segs dir).vCount ∧
    (create_vertices segs fanPt toUV).2.length =
        (compute_vectors segs dir).iCount ∧
    ∀ x ∈ (create_vertices segs fanPt toUV).2,
      x < (compute_vectors segs dir).vCount := by
  obtain ⟨h1, h2, h3⟩ := create_verticesLoop_spec fanPt toUV
    ((List.range segs.length).map fun a =>
      (segs.getD a default, segs.getD ((a + 1) % segs.length) default)) [] []
  have hmapv : (((List.range segs.length).map fun a =>
      (segs.getD a default, segs.getD ((a + 1) % segs.length) default)).map
        fun p => 4 + edgeVCount p.2).sum =
      4 * segs.length + (segs.map edgeVCount).sum := by
    rw [List.map_map]
    simp only [Function.comp_def]
    rw [list_sum_map_range
      (fun a => 4 + edgeVCount (segs.getD ((a + 1) % segs.length) default))
      segs.length]
    rw [sum_range_cycle (fun a => 4 + edgeVCount (segs.getD a default))
      segs.length]
    rw [Finset.sum_add_distrib, Finset.sum_const, Finset.card_range,
      smul_eq_mul, sum_range_getD default edgeVCount segs]
    omega
  have hmapi : (((List.range segs.length).map fun a =>
      (segs.getD a default, segs.getD ((a + 1) % segs.length) default)).map
        fun p => 6 + edgeICount p.2).sum =
      6 * segs.length + (segs.map edgeICount).sum := by
    rw [List.map_map]
    simp only [Function.comp_def]
    rw [list_sum_map_range
      (fun a => 6 + edgeICount (segs.getD ((a + 1) % segs.length) default))
      segs.length]
    rw [sum_range_cycle (fun a => 6 + edgeICount (segs.getD a default))
      segs.length]
    rw [Finset.sum_add_distrib, Finset.sum_const, Finset.card_range,
      smul_eq_mul, sum_range_getD default edgeICount segs]
    omega
  have hveq : (create_vertices segs fanPt toUV).1.length =
      (compute_vectors segs dir).vCount := by
    simp only [create_vertices]
    rw [h1, List.length_nil, compute_vectors_vCount, hmapv]
    omega
  have hieq : (create_vertices segs fanPt toUV).2.length =
      (compute_vectors segs dir).iCount := by
    simp only [create_vertices]
    rw [h2, List.length_nil, compute_vectors_iCount, hmapi]
    omega
  refine ⟨hveq, hieq, ?_⟩
  intro x hx
  rw [← hveq]
  exact h3 (fun y hy => absurd hy (List.not_mem_nil y)) x hx

/-- Witness for C9: the unit square's emitted vertex buffer length matches
the precomputed vertex count. -/
theorem c9_witness :
    (create_vertices squareSegs ⟨1 / 2, 1 / 2⟩ uvZero).1.length =
      (compute_vectors squareSegs SkPathDirection.kCCW).vCount :=
  (c9_exact_emission squareSegs ⟨1 / 2, 1 / 2⟩ uvZero
    SkPathDirection.kCCW).1

/-- C10: the degeneracy classifier state threaded through the decoder is the
fold of the classifier step over exactly the fed points; a cubic command
feeds its own three new control points (the flattener's output is never
fed); hence the degeneracy verdict is the same under any two cubic
flatteners. -/
theorem c10_cubic_feeding :
    (∀ (cmds : List GrPathCmd) (conv : CubicFlattener)
        (data : DegenerateTestData) (segs : List Segment),
      (get_segmentsLoop conv cmds data segs).1 =
        (fedPoints cmds).foldl update_degenerate_test data) ∧
    (∀ p0 p1 p2 p3 : GrPoint,
      fedPointsOfCmd (GrPathCmd.kCubic p0 p1 p2 p3) = [p1, p2, p3]) ∧
    (∀ (cmds : List GrPathCmd) (dir : SkPathDirection)
        (conv1 conv2 : CubicFlattener),
      (get_segments cmds dir conv1 = none ↔
        get_segments cmds dir conv2 = none)) :=
  ⟨fun cmds conv data segs => get_segmentsLoop_fst conv cmds data segs,
   fun _ _ _ _ => rfl,
   fun cmds dir conv1 conv2 => by
     rw [get_segments_eq_none_iff, get_segments_eq_none_iff]⟩

/-- Witness for C10: on a single-cubic stream, the verdict under the
empty flattener and under an echoing flattener agree. -/
theorem c10_witness :
    get_segments [GrPathCmd.kCubic ⟨0, 0⟩ ⟨1, 0⟩ ⟨2, 0⟩ ⟨3, 0⟩]
        SkPathDirection.kCCW convZero = none ↔
      get_segments [GrPathCmd.kCubic ⟨0, 0⟩ ⟨1, 0⟩ ⟨2, 0⟩ ⟨3, 0⟩]
        SkPathDirection.kCCW convEcho = none :=
  c10_cubic_feeding.2.2 _ SkPathDirection.kCCW convZero convEcho

/-- C7: if index reservation fails after vertex reservation succeeded,
`drawPath` calls `resetVertexSource` (after the two reservations, before
returning) and submits no draw; if vertex reservation fails, `drawPath`
returns after that single call, submitting no draw. -/
theorem c7_two_phase_reservation (cmds : List GrPathCmd)
    (dir : SkPathDirection) (conv : CubicFlattener) (toUV : QuadUVMapper)
    (h : (get_segments cmds dir conv).isSome = true) :
    (∃ vC iC, (drawPath false cmds dir conv toUV true false).calls =
      [BackendCall.reserveVertexSpace vC, BackendCall.reserveIndexSpace iC,
        BackendCall.resetVertexSource]) ∧
    (∀ n m : ℕ, BackendCall.drawIndexed n m ∉
      (drawPath false cmds dir conv toUV true false).calls) ∧
    (drawPath false cmds dir conv toUV true false).verts = [] ∧
    (∀ iOk : Bool, ∃ vC,
      (drawPath false cmds dir conv toUV false iOk).calls =
        [BackendCall.reserveVertexSpace vC]) ∧
    (∀ (iOk : Bool) (n m : ℕ), BackendCall.drawIndexed n m ∉
      (drawPath false cmds dir conv toUV false iOk).calls) := by
  obtain ⟨cv, hcv⟩ := Option.isSome_iff_exists.mp h
  have hd1 : drawPath false cmds dir conv toUV true false =
      ⟨[BackendCall.reserveVertexSpace cv.vCount,
        BackendCall.reserveIndexSpace cv.iCount,
        BackendCall.resetVertexSource], [], []⟩ := by
    simp [drawPath, hcv]
  have hd2 : ∀ iOk : Bool, drawPath false cmds dir conv toUV false iOk =
      ⟨[BackendCall.reserveVertexSpace cv.vCount], [], []⟩ := by
    intro iOk
    simp [drawPath, hcv]
  refine ⟨⟨cv.vCount, cv.iCount, by rw [hd1]⟩, ?_, by rw [hd1],
    fun iOk => ⟨cv.vCount, by rw [hd2]⟩, ?_⟩
  · intro n m
    rw [hd1]
    simp
  · intro iOk n m
    rw [hd2]
    simp

/-- Witness for C7: the right triangle passes the degeneracy test, and with
a failing index reservation the trace is reserve, reserve, release. -/
theorem c7_witness :
    ∃ vC iC, (drawPath false triCmds SkPathDirection.kCCW convZero uvZero
        true false).calls =
      [BackendCall.reserveVertexSpace vC, BackendCall.reserveIndexSpace iC,
        BackendCall.resetVertexSource] :=
  (c7_two_phase_reservation triCmds SkPathDirection.kCCW convZero uvZero
    (by
      rw [get_segments_eq_some triCmds SkPathDirection.kCCW convZero
        triCmds_not_degenerate]
      rfl)).1

/-- C1 (amended): whenever the incremental classifier's verdict on the fed
points is degenerate — which holds in particular for every single-point path
and every single-segment (force-closed) path — `get_segments` returns
nothing and `drawPath` returns having produced zero vertices and zero
indices and having issued no backend calls. -/
theorem c1_degenerate_verdict_draws_nothing :
    (∀ (cmds : List GrPathCmd) (dir : SkPathDirection)
        (conv : CubicFlattener) (toUV : QuadUVMapper)
        (isEmpty vOk iOk : Bool),
      ((fedPoints cmds).foldl update_degenerate_test
          initDegenerateTestData).isDegenerate = true →
      get_segments cmds dir conv = none ∧
      drawPath isEmpty cmds dir conv toUV vOk iOk = ⟨[], [], []⟩) ∧
    (∀ p : GrPoint,
      ((fedPoints [GrPathCmd.kMove p]).foldl update_degenerate_test
        initDegenerateTestData).isDegenerate = true) ∧
    (∀ p q : GrPoint,
      ((fedPoints [GrPathCmd.kMove p, GrPathCmd.kLine q, GrPathCmd.kLine p,
          GrPathCmd.kClose]).foldl update_degenerate_test
        initDegenerateTestData).isDegenerate = true) := by
  refine ⟨?_, ?_, ?_⟩
  · intro cmds dir conv toUV isEmpty vOk iOk h
    have hnone : get_segments cmds dir conv = none :=
      (get_segments_eq_none_iff cmds dir conv).mpr h
    refine ⟨hnone, ?_⟩
    cases isEmpty
    · simp [drawPath, hnone]
    · simp [drawPath]
  · intro p
    rfl
  · intro p q
    have hfed : fedPoints [GrPathCmd.kMove p, GrPathCmd.kLine q,
        GrPathCmd.kLine p, GrPathCmd.kClose] = [p, q, p] := rfl
    rw [hfed]
    simp only [List.foldl_cons, List.foldl_nil]
    rw [update_init]
    by_cases hc : q.distanceToSqd p > degenerateTOL_SQD
    · rw [update_kPoint_step p q ⟨0, 0⟩ 0 hc]
      rw [update_kLine_stay _ _ _ _ ?hng]
      case hng =>
        have hval : (GrPoint.setOrthog (GrPoint.normalize (q - p))
            GrSide.kLeft).dot p +
            -((GrPoint.setOrthog (GrPoint.normalize (q - p))
              GrSide.kLeft).dot p) = 0 := by
          ring
        rw [hval]
        norm_num [degenerateTOL, SK_Scalar1]
      rfl
    · rw [update_kPoint_stay p ⟨0, 0⟩ 0 q hc]
      rw [update_kPoint_stay p ⟨0, 0⟩ 0 p ?hnp]
      case hnp =>
        have h0 : p.distanceToSqd p = 0 := by
          simp [GrPoint.distanceToSqd]
        rw [h0]
        norm_num [degenerateTOL_SQD, degenerateTOL, SK_Scalar1]
      rfl

/-- Witness for C1: a single-move path is judged degenerate by the theorem's
second clause, so by the first clause `get_segments` rejects it. -/
theorem c1_witness :
    get_segments [GrPathCmd.kMove ⟨0, 0⟩] SkPathDirection.kCCW convZero =
      none :=
  (c1_degenerate_verdict_draws_nothing.1 [GrPathCmd.kMove ⟨0, 0⟩]
    SkPathDirection.kCCW convZero uvZero false true true
    (c1_degenerate_verdict_draws_nothing.2.1 ⟨0, 0⟩)).1

/-- Counterexample for C1 as stated: `nearLineCmds` feeds only points within
tolerance 1/16 of the single line with unit normal (0, 1) through the
origin (the x-axis), yet the classifier's verdict is not degenerate:
`get_segments` succeeds and `drawPath` issues backend calls. -/
theorem c1_counterexample :
    GrPoint.length ⟨0, 1⟩ = 1 ∧
    (∀ p ∈ fedPoints nearLineCmds,
      |GrPoint.dot ⟨0, 1⟩ p + 0| ≤ 1 / 16) ∧
    get_segments nearLineCmds SkPathDirection.kCCW convZero ≠ none ∧
    (drawPath false nearLineCmds SkPathDirection.kCCW convZero uvZero
      true true).calls ≠ [] := by
  refine ⟨?_, ?_, ?_, ?_⟩
  · simp only [GrPoint.length, GrPoint.lengthSqd]
    rw [show ((0 : ℝ) * 0 + 1 * 1) = 1 by norm_num]
    exact Real.sqrt_one
  · intro p hp
    have hfed : fedPoints nearLineCmds =
        [⟨0, 0⟩, ⟨0.08, 0.06⟩, ⟨10, 0⟩, ⟨0, 0⟩] := rfl
    rw [hfed] at hp
    simp only [List.mem_cons, List.not_mem_nil, or_false] at hp
    rcases hp with rfl | rfl | rfl | rfl
    · rw [show GrPoint.dot ⟨0, 1⟩ ⟨0, 0⟩ + 0 = 0 from by
        norm_num [GrPoint.dot]]
      rw [abs_zero]
      norm_num
    · rw [show GrPoint.dot ⟨0, 1⟩ ⟨0.08, 0.06⟩ + 0 = 0.06 from by
        norm_num [GrPoint.dot]]
      rw [abs_of_nonneg (by norm_num)]
      norm_num
    · rw [show GrPoint.dot ⟨0, 1⟩ ⟨10, 0⟩ + 0 = 0 from by
        norm_num [GrPoint.dot]]
      rw [abs_zero]
      norm_num
    · rw [show GrPoint.dot ⟨0, 1⟩ ⟨0, 0⟩ + 0 = 0 from by
        norm_num [GrPoint.dot]]
      rw [abs_zero]
      norm_num
  · rw [get_segments_eq_some nearLineCmds SkPathDirection.kCCW convZero
      nearLineCmds_not_degenerate]
    simp
  · have hsome := get_segments_eq_some nearLineCmds SkPathDirection.kCCW
      convZero nearLineCmds_not_degenerate
    simp [drawPath, hsome]

/-- C8 (amended): corner-wedge vertices and line edge-group vertices carry
the fixed sentinel `-SK_Scalar1` in both signed-distance scalars, while the
three offset vertices of a quadratic edge group carry the different,
large-magnitude sentinel `-GR_ScalarMax / 100` in both scalars. -/
theorem c8_distance_sentinels :
    (∀ sega segb : Segment, ∀ vert ∈ wedgeVerts sega segb,
      vert.fD0 = -SK_Scalar1 ∧ vert.fD1 = -SK_Scalar1) ∧
    (∀ (fanPt : GrPoint) (sega segb : Segment),
      ∀ vert ∈ lineVerts fanPt sega segb,
      vert.fD0 = -SK_Scalar1 ∧ vert.fD1 = -SK_Scalar1) ∧
    (∀ (fanPt : GrPoint) (sega segb : Segment) (toUV : QuadUVMapper),
      ∀ k ∈ ([3, 4, 5] : List ℕ),
      ((quadVerts fanPt sega segb toUV).getD k default).fD0 =
          -(GR_ScalarMax / 100) ∧
        ((quadVerts fanPt sega segb toUV).getD k default).fD1 =
          -(GR_ScalarMax / 100)) := by
  refine ⟨?_, ?_, ?_⟩
  · intro sega segb vert hv
    simp only [wedgeVerts, List.mem_cons, List.not_mem_nil, or_false] at hv
    rcases hv with rfl | rfl | rfl | rfl <;> exact ⟨rfl, rfl⟩
  · intro fanPt sega segb vert hv
    simp only [lineVerts, List.mem_cons, List.not_mem_nil, or_false] at hv
    rcases hv with rfl | rfl | rfl | rfl | rfl <;> exact ⟨rfl, rfl⟩
  · intro fanPt sega segb toUV k hk
    simp only [List.mem_cons, List.not_mem_nil, or_false] at hk
    rcases hk with rfl | rfl | rfl <;> exact ⟨rfl, rfl⟩

/-- Witness for C8: the first offset vertex of a quad edge group carries the
large-magnitude sentinel in its first distance scalar. -/
theorem c8_witness :
    ((quadVerts ⟨0, 0⟩ default default uvZero).getD 3 default).fD0 =
      -(GR_ScalarMax / 100) :=
  (c8_distance_sentinels.2.2 ⟨0, 0⟩ default default uvZero 3 (by simp)).1

/-- Counterexample for C8 as stated: within one emitted mesh (a single quad
segment), a corner-wedge vertex carries sentinel `-SK_Scalar1` while a quad
offset vertex carries `-GR_ScalarMax / 100`, and these two values differ, so
the unused distance fields do not all carry one and the same sentinel. -/
theorem c8_counterexample :
    ((create_vertices oneQuadSegs ⟨0, 0⟩ uvZero).1.getD 0 default).fD0 =
        -SK_Scalar1 ∧
    ((create_vertices oneQuadSegs ⟨0, 0⟩ uvZero).1.getD 7 default).fD0 =
        -(GR_ScalarMax / 100) ∧
    -(GR_ScalarMax / 100) ≠ -SK_Scalar1 := by
  refine ⟨rfl, rfl, ?_⟩
  norm_num [GR_ScalarMax, SK_Scalar1]

end












